import Mathlib

/-!
Shallow embedding of the form/template designer's data model and editing
operations (the field/schema core of the repository): the types from
`src/types.ts`, the schema-editing state machine of
`src/components/FormBuilder.tsx`, the registry/library handlers of
`src/App.tsx`, the custom-field-type base-type change and library binding of
the field designer components, and the dropdown-option parsing of
`src/components/FieldEditor.tsx`.  React `useState` setters are modelled as
explicit state passing: each handler becomes a function from the component
state to the new component state.  JavaScript arrays become `List`,
optional / possibly-`undefined` properties become `Option`, and
`Array.prototype.splice` is modelled by explicit take/drop functions that
reproduce its index clamping.
-/

namespace FB

/-- The base field types from `src/types.ts` (`FieldType`):
`textarea` is the long-text type and `select` the dropdown type. -/
inductive FieldType where
  | text
  | email
  | number
  | date
  | textarea
  | select
  | checkbox
deriving DecidableEq

/-- The validation-rule kinds from `src/types.ts` (`ValidationRule.type`). -/
inductive ValidationRuleType where
  | regex
  | min
  | max
  | minLength
  | maxLength
deriving DecidableEq

/-- `ValidationRule.value` is `string | number` in `src/types.ts`. -/
inductive RuleValue where
  | str (s : String)
  | num (n : Int)
deriving DecidableEq

/-- `ValidationRule` from `src/types.ts`. -/
structure ValidationRule where
  type : ValidationRuleType
  value : RuleValue
  message : String
deriving DecidableEq

/-- `FieldLibrary` from `src/types.ts`.  The `parentId` property is the
optional parent-library reference used by `FieldLibraryBrowser.tsx`
(`library.parentId`) to build the library tree. -/
structure FieldLibrary where
  id : String
  name : String
  description : Option String
  parentId : Option String
deriving DecidableEq

/-- `CustomFieldType` from `src/types.ts`. -/
structure CustomFieldType where
  id : String
  name : String
  baseType : FieldType
  icon : String
  description : Option String
  validationRules : List ValidationRule
  defaultPlaceholder : Option String
  libraryIds : Option (List String)
deriving DecidableEq

/-- `FormField` from `src/types.ts`. -/
structure FormField where
  id : String
  type : FieldType
  customFieldTypeId : Option String
  libraryId : Option String
  label : String
  placeholder : Option String
  required : Bool
  multiple : Bool
  options : Option (List String)
  validationRules : Option (List ValidationRule)
deriving DecidableEq

/-- `FormSchema` from `src/types.ts`. -/
structure FormSchema where
  id : String
  title : String
  description : Option String
  fields : List FormField
deriving DecidableEq

/-- `DeletedFieldInfo` from `FormBuilder.tsx`: the single most-recent
deletion pending undo. -/
structure DeletedFieldInfo where
  field : FormField
  index : Nat
deriving DecidableEq

/-- A JavaScript `Date` as the six components `formatVersionId` reads.
`month` is 0-based, exactly as `Date.prototype.getMonth` returns it. -/
structure Date where
  year : Nat
  month : Nat
  day : Nat
  hour : Nat
  minute : Nat
  second : Nat
deriving DecidableEq

/-- `SavedVersion` from `FormBuilder.tsx`: a frozen snapshot of the schema.
The source stores `JSON.parse(JSON.stringify(schema))`; under value
semantics that deep copy is the schema value itself. -/
structure SavedVersion where
  id : String
  timestamp : Date
  schema : FormSchema
deriving DecidableEq

/-- The helper `pad` of `formatVersionId` in `FormBuilder.tsx`: render the
number and left-pad the result with zeros to two characters. -/
def pad (n : Nat) : String :=
  let s := toString n
  if s.length < 2 then "0" ++ s else s

/-- `formatVersionId` from `FormBuilder.tsx`: year, month+1, day, then a
dash and hour, minute, second, all but the year zero-padded to 2 digits. -/
def formatVersionId (d : Date) : String :=
  toString d.year ++ pad (d.month + 1) ++ pad d.day ++ "-" ++
    pad d.hour ++ pad d.minute ++ pad d.second

/-- `Array.prototype.findIndex` on a list: index of the first element
satisfying `p`, with the JavaScript result `-1` rendered as `none`. -/
def jsFindIndex (p : α → Bool) : List α → Option Nat
  | [] => none
  | x :: xs => if p x then some 0 else (jsFindIndex p xs).map (· + 1)

/-- `l.splice(i, 1)` (removal of one element at index `i`): everything
before `i` followed by everything after `i`. -/
def jsEraseIdx (l : List α) (i : Nat) : List α :=
  l.take i ++ l.drop (i + 1)

/-- `l.splice(i, 0, a)` (insertion of `a` at index `i`): JavaScript clamps
an index past the end to the length, so `take`/`drop` model it exactly. -/
def spliceInsert (l : List α) (i : Nat) (a : α) : List α :=
  l.take i ++ [a] ++ l.drop i

/-- The `FormBuilder` component state (the `useState` hooks that carry
data-model content; purely visual state such as the active tab is not part
of the data model). -/
structure BuilderState where
  schema : FormSchema
  movingFieldId : Option String
  deletedField : Option DeletedFieldInfo
  savedVersions : List SavedVersion
  currentVersionId : Option String
deriving DecidableEq

/-- `addField` from `FormBuilder.tsx`.  `generateId()` draws a random id;
the fresh id is passed in as `newId`. -/
def addField (st : BuilderState) (newId : String) (t : FieldType) : BuilderState :=
  let newField : FormField :=
    { id := newId
      type := t
      customFieldTypeId := none
      libraryId := none
      label := ""
      placeholder := some ""
      required := false
      multiple := false
      options := if t = .select then some ["Option 1", "Option 2", "Option 3"] else none
      validationRules := none }
  { st with schema := { st.schema with fields := st.schema.fields ++ [newField] } }

/-- `updateField` from `FormBuilder.tsx`: replace the field whose id
matches, preserving order. -/
def updateField (st : BuilderState) (updatedField : FormField) : BuilderState :=
  { st with schema :=
      { st.schema with fields :=
          st.schema.fields.map (fun f => if f.id = updatedField.id then updatedField else f) } }

/-- `deleteField` from `FormBuilder.tsx`: find the field, and when it
exists record it (with its index) as the pending deletion and remove every
field with that id.  When `findIndex` returns `-1`, `fields[-1]` is
`undefined` and the guard skips both state updates. -/
def deleteField (st : BuilderState) (id : String) : BuilderState :=
  match jsFindIndex (fun f => f.id = id) st.schema.fields with
  | none => st
  | some fieldIndex =>
    match st.schema.fields[fieldIndex]? with
    | none => st
    | some field =>
      { st with
          deletedField := some { field := field, index := fieldIndex }
          schema := { st.schema with fields := st.schema.fields.filter (fun f => ¬(f.id = id)) } }

/-- `undoDelete` from `FormBuilder.tsx`: splice the recorded field back in
at its recorded index and clear the pending deletion; no-op when nothing
is pending. -/
def undoDelete (st : BuilderState) : BuilderState :=
  match st.deletedField with
  | none => st
  | some info =>
    { st with
        schema := { st.schema with fields := spliceInsert st.schema.fields info.index info.field }
        deletedField := none }

/-- `moveFieldToPosition` from `FormBuilder.tsx`: remove the field at its
current index, decrement the target index by one when it lies numerically
after the current index, splice the field back in at the adjusted index,
and leave the moving state.  An unknown id leaves the schema unchanged. -/
def moveFieldToPosition (st : BuilderState) (fieldId : String) (targetIndex : Nat) : BuilderState :=
  let st1 :=
    match jsFindIndex (fun f => f.id = fieldId) st.schema.fields with
    | none => st
    | some currentIndex =>
      match st.schema.fields[currentIndex]? with
      | none => st
      | some movedField =>
        let newFields := jsEraseIdx st.schema.fields currentIndex
        let adjustedIndex := if targetIndex > currentIndex then targetIndex - 1 else targetIndex
        { st with schema :=
            { st.schema with fields := spliceInsert newFields adjustedIndex movedField } }
  { st1 with movingFieldId := none }

/-- `saveVersion` from `FormBuilder.tsx` with the wall clock passed in:
prepend a snapshot of the live schema (the JSON round-trip deep copy is the
identity under value semantics) and select its id. -/
def saveVersion (st : BuilderState) (now : Date) : BuilderState :=
  let versionId := formatVersionId now
  let newVersion : SavedVersion := { id := versionId, timestamp := now, schema := st.schema }
  { st with
      savedVersions := newVersion :: st.savedVersions
      currentVersionId := some versionId }

/-- `loadVersion` from `FormBuilder.tsx`: deep-copy the snapshot into the
live schema (the identity under value semantics) and select its id. -/
def loadVersion (st : BuilderState) (version : SavedVersion) : BuilderState :=
  { st with
      schema := version.schema
      currentVersionId := some version.id }

/-- One schema-editing action of the `FormBuilder` state machine, for
stating properties over arbitrary sequences of edits. -/
inductive EditOp where
  | add (newId : String) (t : FieldType)
  | update (updatedField : FormField)
  | delete (id : String)
  | undo
  | move (fieldId : String) (targetIndex : Nat)
deriving DecidableEq

/-- Apply one schema-editing action. -/
def applyOp (st : BuilderState) : EditOp → BuilderState
  | .add newId t => addField st newId t
  | .update u => updateField st u
  | .delete id => deleteField st id
  | .undo => undoDelete st
  | .move fieldId targetIndex => moveFieldToPosition st fieldId targetIndex

/-- Apply a sequence of schema-editing actions in order. -/
def applyOps (st : BuilderState) (ops : List EditOp) : BuilderState :=
  ops.foldl applyOp st

/-- One entry of the `VALIDATION_TYPES` table of `FieldDesigner.tsx` and
`CreateFieldModal.tsx`. -/
structure ValidationTypeEntry where
  type : ValidationRuleType
  label : String
  appliesTo : List FieldType
deriving DecidableEq

/-- The `VALIDATION_TYPES` table: which validation-rule kinds apply to
which base field types. -/
def VALIDATION_TYPES : List ValidationTypeEntry :=
  [ { type := .regex, label := "Regex Pattern", appliesTo := [.text, .email, .textarea] }
  , { type := .minLength, label := "Minimum Length", appliesTo := [.text, .email, .textarea] }
  , { type := .maxLength, label := "Maximum Length", appliesTo := [.text, .email, .textarea] }
  , { type := .min, label := "Minimum Value", appliesTo := [.number, .date] }
  , { type := .max, label := "Maximum Value", appliesTo := [.number, .date] } ]

/-- The base-type select `onChange` handler of `FieldDesigner.tsx` (and
identically `CreateFieldModal.tsx`): set the new base type and keep only
the validation rules whose kind, looked up in `VALIDATION_TYPES`, applies
to it (a kind absent from the table is `undefined?.includes`, falsy). -/
def changeBaseType (field : CustomFieldType) (newBaseType : FieldType) : CustomFieldType :=
  let applicableRules := field.validationRules.filter (fun rule =>
    match VALIDATION_TYPES.find? (fun v => v.type = rule.type) with
    | some v => v.appliesTo.contains newBaseType
    | none => false)
  { field with baseType := newBaseType, validationRules := applicableRules }

/-- The claim's applicability table, stated directly from the spec's words:
regex, minLength and maxLength apply to text, email and long-text
(`textarea`); min and max apply to number and date.  Used only to compare
the source's filter against the specification. -/
def ruleKindAppliesSpec (k : ValidationRuleType) (t : FieldType) : Bool :=
  match k with
  | .regex | .minLength | .maxLength => t = .text || t = .email || t = .textarea
  | .min | .max => t = .number || t = .date

/-- The library branch of `handleTypeChange` in `FieldEditor.tsx` (second
variant, `src/unnamed/part_001` lines 250-263; the collapsible variant at
lines 49-62 is identical): resolve the selected custom field type by id
and, when found, bind the field to it — base type, custom-type id, options
kept (or seeded with the defaults when absent) for dropdowns and dropped
otherwise, and a value copy of the custom type's validation rules (a
JavaScript array is always truthy, so the rule copy is unconditional).
When the id resolves to nothing, `onUpdate` is not called. -/
def setFieldTypeFromLibrary (customFields : List CustomFieldType) (field : FormField)
    (value : String) : FormField :=
  match customFields.find? (fun cf => cf.id = value) with
  | none => field
  | some customField =>
    { field with
        type := customField.baseType
        customFieldTypeId := some customField.id
        options :=
          if customField.baseType = .select then
            some (match field.options with
              | some opts => opts
              | none => ["Option 1", "Option 2", "Option 3"])
          else none
        validationRules := some customField.validationRules }

/-- The `App` component state from `src/App.tsx`: the custom-field-type
registry and the library index. -/
structure AppState where
  customFields : List CustomFieldType
  fieldLibraries : List FieldLibrary
deriving DecidableEq

/-- `handleSaveCustomField` from `src/App.tsx`: replace the registry entry
with a matching id in place, else append. -/
def handleSaveCustomField (st : AppState) (field : CustomFieldType) : AppState :=
  { st with customFields :=
      match jsFindIndex (fun f => f.id = field.id) st.customFields with
      | some existingIndex => st.customFields.set existingIndex field
      | none => st.customFields ++ [field] }

/-- `handleDeleteCustomField` from `src/App.tsx`. -/
def handleDeleteCustomField (st : AppState) (id : String) : AppState :=
  { st with customFields := st.customFields.filter (fun f => ¬(f.id = id)) }

/-- `handleSaveLibrary` from `src/App.tsx`. -/
def handleSaveLibrary (st : AppState) (library : FieldLibrary) : AppState :=
  { st with fieldLibraries :=
      match jsFindIndex (fun l => l.id = library.id) st.fieldLibraries with
      | some existingIndex => st.fieldLibraries.set existingIndex library
      | none => st.fieldLibraries ++ [library] }

/-- The arrow function `handleDeleteLibrary` maps over `customFields` in
`src/App.tsx`: when `f.libraryIds?.includes(id)` (an absent `libraryIds`
is `undefined`, falsy), filter `id` out of the membership list, else leave
the field type untouched. -/
def unassignLibrary (id : String) (f : CustomFieldType) : CustomFieldType :=
  match f.libraryIds with
  | some ids =>
    if ids.contains id then
      { f with libraryIds := some (ids.filter (fun libId => ¬(libId = id))) }
    else f
  | none => f

/-- `handleDeleteLibrary` from `src/App.tsx`: drop the library and remove
its id from every custom field type's `libraryIds`.  Nothing touches
`parentId` of the remaining libraries. -/
def handleDeleteLibrary (st : AppState) (id : String) : AppState :=
  { st with
      fieldLibraries := st.fieldLibraries.filter (fun l => ¬(l.id = id))
      customFields := st.customFields.map (unassignLibrary id) }

/-- The whole application session: the `App` state together with the
`FormBuilder` child state that holds the live schema (`src/App.tsx` keeps
the registry, `FormBuilder.tsx` keeps the schema). -/
structure Session where
  app : AppState
  builder : BuilderState
deriving DecidableEq

/-- `handleSaveCustomField` as the session sees it: only the registry half
of the session changes. -/
def sessionSaveCustomField (s : Session) (field : CustomFieldType) : Session :=
  { s with app := handleSaveCustomField s.app field }

/-- `String.prototype.split` on a single newline, written as structural
recursion over the character list with an accumulator for the current
segment (so that it evaluates inside the kernel). -/
def splitNlAux : List Char → List Char → List String
  | [], acc => [⟨acc.reverse⟩]
  | c :: cs, acc =>
    if c = '\n' then ⟨acc.reverse⟩ :: splitNlAux cs [] else splitNlAux cs (c :: acc)

/-- `value.split(chr(10))` from the options textarea. -/
def jsSplitNewline (s : String) : List String :=
  splitNlAux s.data []

/-- `String.prototype.trim`: drop leading and trailing whitespace, written
over the character list. -/
def jsTrim (s : String) : String :=
  ⟨((s.data.dropWhile Char.isWhitespace).reverse.dropWhile Char.isWhitespace).reverse⟩

/-- The options-textarea `onChange` of `FieldEditor.tsx`: split the entered
text on newlines and keep only the lines whose trim is nonempty
(`filter((o) => o.trim())`, an empty string being falsy). -/
def parseOptions (s : String) : List String :=
  (jsSplitNewline s).filter (fun o => ¬(jsTrim o = ""))

/-- The field update performed by the options-textarea `onChange` of
`FieldEditor.tsx` (identical in the `src/unnamed/part_001` variant). -/
def fieldEditorSetOptions (field : FormField) (s : String) : FormField :=
  { field with options := some (parseOptions s) }

/-! ## Concrete fixtures used by the example conjuncts and witnesses -/

/-- A bare text field with a given id, used as a concrete fixture. -/
def mkF (i : String) : FormField :=
  { id := i, type := .text, customFieldTypeId := none, libraryId := none, label := ""
    placeholder := none, required := false, multiple := false, options := none
    validationRules := none }

/-- A four-field schema `[f0, f1, f2, f3]`. -/
def schema4 : FormSchema :=
  { id := "s", title := "My Form", description := some ""
    fields := [mkF "f0", mkF "f1", mkF "f2", mkF "f3"] }

/-- A builder state holding `schema4` with nothing pending. -/
def st4 : BuilderState :=
  { schema := schema4, movingFieldId := none, deletedField := none
    savedVersions := [], currentVersionId := none }

/-- A concrete regex validation rule. -/
def regexRule : ValidationRule :=
  { type := .regex, value := .str "^[0-9]+$", message := "Digits only" }

/-- A concrete custom field type with base type text and one regex rule. -/
def cfTextRegex : CustomFieldType :=
  { id := "c1", name := "Code", baseType := .text, icon := "#", description := none
    validationRules := [regexRule], defaultPlaceholder := none, libraryIds := none }

/-- A concrete dropdown custom field type assigned to library `L1`. -/
def cfDropdown : CustomFieldType :=
  { id := "c2", name := "Choice", baseType := .select, icon := "=", description := none
    validationRules := [], defaultPlaceholder := none, libraryIds := some ["L1"] }

/-- A concrete dropdown form field that already carries options. -/
def fldWithOptions : FormField :=
  { mkF "x" with type := .select, options := some ["A"], libraryId := some "L1" }

/-- A concrete root library `L`. -/
def libL : FieldLibrary :=
  { id := "L", name := "Parent", description := none, parentId := none }

/-- A concrete library `C` whose parent is `L`. -/
def libC : FieldLibrary :=
  { id := "C", name := "Child", description := none, parentId := some "L" }

/-- An application state holding `L` and its child `C`. -/
def appLC : AppState := { customFields := [], fieldLibraries := [libL, libC] }

/-- Custom field types `A`, `B` (members of library `L`) and `Cf` (not a
member of `L`). -/
def cfA : CustomFieldType :=
  { id := "A", name := "A", baseType := .text, icon := "a", description := none
    validationRules := [], defaultPlaceholder := none, libraryIds := some ["L", "M"] }

/-- See `cfA`. -/
def cfB : CustomFieldType :=
  { id := "B", name := "B", baseType := .email, icon := "b", description := none
    validationRules := [], defaultPlaceholder := none, libraryIds := some ["L"] }

/-- See `cfA`. -/
def cfCf : CustomFieldType :=
  { id := "Cf", name := "Cf", baseType := .number, icon := "c", description := none
    validationRules := [], defaultPlaceholder := none, libraryIds := some ["M"] }

/-- An application state holding `A`, `B`, `Cf` and library `L`. -/
def appABC : AppState := { customFields := [cfA, cfB, cfCf], fieldLibraries := [libL] }

/-- A custom field type with one regex rule, member of `L1`. -/
def cfV1 : CustomFieldType :=
  { id := "c3", name := "Phone", baseType := .text, icon := "t", description := none
    validationRules := [regexRule], defaultPlaceholder := none, libraryIds := some ["L1"] }

/-- The same custom field type after its rules were edited away. -/
def cfV2 : CustomFieldType := { cfV1 with validationRules := [] }

/-- A form field bound to `cfV1` through the library branch of
`handleTypeChange`. -/
def boundField : FormField :=
  setFieldTypeFromLibrary [cfV1] { mkF "x" with libraryId := some "L1" } "c3"

/-- A session whose schema holds `boundField` and whose registry holds
`cfV1`. -/
def sess0 : Session :=
  { app := { customFields := [cfV1], fieldLibraries := [] }
    builder := { st4 with schema := { schema4 with fields := [boundField] } } }

/-! ## Helper lemmas -/

/-- A found index is inside the list. -/
theorem jsFindIndex_lt_length {p : α → Bool} :
    ∀ {l : List α} {i : Nat}, jsFindIndex p l = some i → i < l.length := by
  intro l
  induction l with
  | nil => intro i h; simp [jsFindIndex] at h
  | cons x xs ih =>
    intro i h
    simp only [jsFindIndex] at h
    by_cases hp : p x
    · rw [if_pos hp] at h
      injection h with h2
      simp only [List.length_cons]
      omega
    · rw [if_neg hp] at h
      cases hfi : jsFindIndex p xs with
      | none => rw [hfi] at h; simp at h
      | some j =>
        rw [hfi] at h
        simp at h
        have := ih hfi
        simp only [List.length_cons]
        omega

/-- Splicing an element in anywhere is, up to permutation, consing it. -/
theorem spliceInsert_perm (l : List α) (i : Nat) (a : α) :
    (spliceInsert l i a).Perm (a :: l) := by
  have h1 : spliceInsert l i a = l.take i ++ a :: l.drop i := by
    simp [spliceInsert]
  rw [h1]
  have h2 := @List.perm_middle _ a (l.take i) (l.drop i)
  simpa [List.take_append_drop] using h2

/-- A list is, up to permutation, its `i`-th element consed onto the list
with that element spliced out. -/
theorem perm_cons_jsEraseIdx {l : List α} {i : Nat} (h : i < l.length) :
    l.Perm (l[i] :: jsEraseIdx l i) := by
  unfold jsEraseIdx
  conv_lhs => rw [← List.take_append_drop i l, List.drop_eq_getElem_cons h]
  exact List.perm_middle

/-- `findIndex` over a split list whose first part has no match and whose
middle element matches: the index of the middle element. -/
theorem jsFindIndex_append (p : α → Bool) (l₁ l₂ : List α) (f : α)
    (h1 : ∀ g ∈ l₁, p g = false) (hf : p f = true) :
    jsFindIndex p (l₁ ++ f :: l₂) = some l₁.length := by
  induction l₁ with
  | nil => simp [jsFindIndex, hf]
  | cons x xs ih =>
    have hx : p x = false := h1 x (List.mem_cons_self x xs)
    have ih2 := ih (fun g hg => h1 g (List.mem_cons_of_mem x hg))
    simp [jsFindIndex, hx, ih2, List.cons_append]

/-- Schema of a move whose field id is not found: unchanged. -/
theorem moveFieldToPosition_schema_none {st : BuilderState} {fieldId : String}
    (targetIndex : Nat)
    (h : jsFindIndex (fun f => f.id = fieldId) st.schema.fields = none) :
    (moveFieldToPosition st fieldId targetIndex).schema = st.schema := by
  simp only [moveFieldToPosition, h]

/-- Field list of a move whose field id is found at index `i`. -/
theorem moveFieldToPosition_fields_found {st : BuilderState} {fieldId : String} {i : Nat}
    (targetIndex : Nat)
    (h : jsFindIndex (fun f => f.id = fieldId) st.schema.fields = some i)
    (hi : i < st.schema.fields.length) :
    (moveFieldToPosition st fieldId targetIndex).schema.fields =
      spliceInsert (jsEraseIdx st.schema.fields i)
        (if targetIndex > i then targetIndex - 1 else targetIndex) st.schema.fields[i] := by
  simp only [moveFieldToPosition, h, List.getElem?_eq_getElem hi]

/-- C1: `moveFieldToPosition` is a pure permutation of the schema's field
list — for every builder state, field id and target index the resulting
field list (and hence its list of ids) is a permutation of the original —
and on the four-field schema `[f0, f1, f2, f3]` the adjusted-index rule
yields `[f1, f2, f0, f3]` when moving `f0` to target index 3, and
`[f3, f0, f1, f2]` when moving `f3` to target index 0. -/
theorem moveFieldToPosition_perm :
    (∀ (st : BuilderState) (fieldId : String) (targetIndex : Nat),
      ((moveFieldToPosition st fieldId targetIndex).schema.fields).Perm st.schema.fields ∧
      (((moveFieldToPosition st fieldId targetIndex).schema.fields.map FormField.id).Perm
        (st.schema.fields.map FormField.id))) ∧
    (moveFieldToPosition st4 "f0" 3).schema.fields.map FormField.id = ["f1", "f2", "f0", "f3"] ∧
    (moveFieldToPosition st4 "f3" 0).schema.fields.map FormField.id = ["f3", "f0", "f1", "f2"] := by
  refine ⟨?_, by decide, by decide⟩
  intro st fieldId targetIndex
  have hperm : ((moveFieldToPosition st fieldId targetIndex).schema.fields).Perm
      st.schema.fields := by
    cases h : jsFindIndex (fun f => f.id = fieldId) st.schema.fields with
    | none => rw [moveFieldToPosition_schema_none targetIndex h]
    | some i =>
      have hi := jsFindIndex_lt_length h
      rw [moveFieldToPosition_fields_found targetIndex h hi]
      exact (spliceInsert_perm _ _ _).trans (perm_cons_jsEraseIdx hi).symm
  exact ⟨hperm, hperm.map FormField.id⟩

/-- C2: undo of a delete is exact and single-shot.  Deleting a field whose
id is unique in the schema (the schema invariant) and undoing restores the
original state with no pending deletion; when the recorded index is no
longer a valid position the field is appended at the end; `undoDelete` is
idempotent (a second call in a row changes nothing) and a no-op when
nothing is pending. -/
theorem deleteField_undoDelete_restores :
    (∀ (st : BuilderState) (l₁ l₂ : List FormField) (f : FormField),
      st.schema.fields = l₁ ++ f :: l₂ →
      (∀ g ∈ l₁, g.id ≠ f.id) → (∀ g ∈ l₂, g.id ≠ f.id) →
      undoDelete (deleteField st f.id) = { st with deletedField := none }) ∧
    (∀ (st : BuilderState) (info : DeletedFieldInfo),
      st.deletedField = some info → st.schema.fields.length ≤ info.index →
      (undoDelete st).schema.fields = st.schema.fields ++ [info.field]) ∧
    (∀ st : BuilderState, undoDelete (undoDelete st) = undoDelete st) ∧
    (∀ st : BuilderState, st.deletedField = none → undoDelete st = st) := by
  refine ⟨?_, ?_, ?_, ?_⟩
  · intro st l₁ l₂ f hfields h1 h2
    have hfind : jsFindIndex (fun g => g.id = f.id) st.schema.fields = some l₁.length := by
      rw [hfields]
      exact jsFindIndex_append _ _ _ _ (fun g hg => by simp [h1 g hg]) (by simp)
    have hget : st.schema.fields[l₁.length]? = some f := by
      rw [hfields, List.getElem?_append_right (le_refl _)]
      simp
    have hfilter : st.schema.fields.filter (fun g => ¬(g.id = f.id)) = l₁ ++ l₂ := by
      rw [hfields, List.filter_append]
      have e1 : l₁.filter (fun g => ¬(g.id = f.id)) = l₁ :=
        List.filter_eq_self.mpr (fun g hg => by simp [h1 g hg])
      have e2 : (f :: l₂).filter (fun g => ¬(g.id = f.id)) = l₂ := by
        have e3 : l₂.filter (fun g => ¬(g.id = f.id)) = l₂ :=
          List.filter_eq_self.mpr (fun g hg => by simp [h2 g hg])
        simp [e3]
        exact h2
      rw [e1, e2]
    have hdel : deleteField st f.id =
        { st with
            deletedField := some { field := f, index := l₁.length }
            schema := { st.schema with fields := l₁ ++ l₂ } } := by
      simp only [deleteField, hfind, hget, hfilter]
    rw [hdel]
    have hsplice : spliceInsert (l₁ ++ l₂) l₁.length f = l₁ ++ f :: l₂ := by
      simp [spliceInsert, List.take_left, List.drop_left]
    simp only [undoDelete, hsplice, ← hfields]
  · intro st info hdf hlen
    simp only [undoDelete, hdf, spliceInsert, List.take_of_length_le hlen,
      List.drop_eq_nil_of_le hlen]
    simp
  · intro st
    cases hdf : st.deletedField with
    | none => simp [undoDelete, hdf]
    | some info => simp [undoDelete, hdf]
  · intro st h
    simp [undoDelete, h]

/-- The `VALIDATION_TYPES` lookup made by the base-type change agrees,
kind by kind and base type by base type, with the spec's applicability
table. -/
theorem validationLookup_eq_spec (r : ValidationRule) (t : FieldType) :
    (match VALIDATION_TYPES.find? (fun v => v.type = r.type) with
      | some v => v.appliesTo.contains t
      | none => false) = ruleKindAppliesSpec r.type t := by
  obtain ⟨k, v, m⟩ := r
  cases k <;> cases t <;> rfl

/-- C3: changing a custom field type's base type keeps exactly the
validation rules whose kind applies to the new base type (per the spec's
applicability table) and sets the new base type; a type with one regex
rule and base type text ends with no rules after changing to number, and
keeps the rule after changing to email. -/
theorem changeBaseType_filters_rules :
    (∀ (field : CustomFieldType) (newBaseType : FieldType),
      (changeBaseType field newBaseType).validationRules =
        field.validationRules.filter (fun r => ruleKindAppliesSpec r.type newBaseType) ∧
      (changeBaseType field newBaseType).baseType = newBaseType) ∧
    (changeBaseType cfTextRegex .number).validationRules = [] ∧
    (changeBaseType cfTextRegex .email).validationRules = [regexRule] := by
  refine ⟨fun field newBaseType => ⟨?_, rfl⟩, by decide, by decide⟩
  simp only [changeBaseType]
  exact List.filter_congr (fun r _ => validationLookup_eq_spec r newBaseType)

/-- Un-assignment never changes a custom field type's id. -/
theorem unassignLibrary_id (id : String) (f : CustomFieldType) :
    (unassignLibrary id f).id = f.id := by
  unfold unassignLibrary
  cases f.libraryIds with
  | none => rfl
  | some ids =>
    dsimp only []
    split <;> rfl

/-- After un-assignment the library id is gone from the membership list. -/
theorem unassignLibrary_not_mem (id : String) (f : CustomFieldType) (ids : List String)
    (h : (unassignLibrary id f).libraryIds = some ids) : id ∉ ids := by
  intro hmem
  cases hf : f.libraryIds with
  | none => simp [unassignLibrary, hf] at h
  | some ids0 =>
    cases hc : ids0.contains id with
    | true =>
      simp only [unassignLibrary, hf, hc, if_true] at h
      simp only [Option.some.injEq] at h
      subst h
      have := (List.mem_filter.mp hmem).2
      simp at this
    | false =>
      simp only [unassignLibrary, hf, hc, Bool.false_eq_true, if_false] at h
      simp only [Option.some.injEq] at h
      subst h
      have : ids0.contains id = true := List.elem_iff.mpr hmem
      rw [hc] at this
      cases this

/-- A custom field type whose membership list does not hold the library id
is untouched by un-assignment. -/
theorem unassignLibrary_of_not_mem (id : String) (f : CustomFieldType)
    (h : ∀ ids, f.libraryIds = some ids → id ∉ ids) : unassignLibrary id f = f := by
  cases hf : f.libraryIds with
  | none => simp [unassignLibrary, hf]
  | some ids0 =>
    have hc : ids0.contains id = false := by
      cases hcc : ids0.contains id with
      | false => rfl
      | true => exact absurd (List.elem_iff.mp hcc) (h ids0 hf)
    simp only [unassignLibrary, hf, hc, Bool.false_eq_true, if_false]

/-- C4: deleting a field library cascades un-assignment without deleting
field types.  After `handleDeleteLibrary L` no custom field type's
membership list still holds `L`, the list of custom-field-type ids is
unchanged, and every custom field type whose membership list did not hold
`L` is entirely unchanged. -/
theorem handleDeleteLibrary_unassigns :
    ∀ (st : AppState) (libId : String),
      (∀ f ∈ (handleDeleteLibrary st libId).customFields,
        ∀ ids, f.libraryIds = some ids → libId ∉ ids) ∧
      (handleDeleteLibrary st libId).customFields.map CustomFieldType.id =
        st.customFields.map CustomFieldType.id ∧
      (∀ f ∈ st.customFields,
        (∀ ids, f.libraryIds = some ids → libId ∉ ids) →
        f ∈ (handleDeleteLibrary st libId).customFields) := by
  intro st libId
  refine ⟨?_, ?_, ?_⟩
  · intro f hf ids hids
    obtain ⟨f0, _, rfl⟩ := List.mem_map.mp hf
    exact unassignLibrary_not_mem libId f0 ids hids
  · show (st.customFields.map (unassignLibrary libId)).map CustomFieldType.id = _
    rw [List.map_map]
    exact List.map_congr_left (fun f _ => unassignLibrary_id libId f)
  · intro f hf hnot
    exact List.mem_map.mpr ⟨f, hf, unassignLibrary_of_not_mem libId f hnot⟩

/-- C4 at a concrete registry: deleting `L` keeps the ids of `A`, `B` and
`Cf`, and the non-member `Cf` is entirely unchanged. -/
theorem handleDeleteLibrary_unassigns_witness :
    (handleDeleteLibrary appABC "L").customFields.map CustomFieldType.id =
      ["A", "B", "Cf"] ∧
    cfCf ∈ (handleDeleteLibrary appABC "L").customFields := by
  have hno : ∀ ids, cfCf.libraryIds = some ids → "L" ∉ ids := by
    intro ids h
    injection h with h2
    subst h2
    decide
  exact ⟨((handleDeleteLibrary_unassigns appABC "L").2.1).trans (by decide),
    (handleDeleteLibrary_unassigns appABC "L").2.2 cfCf (by decide) hno⟩

/-- C5, the code evaluated at the failing input: after deleting library
`L`, its child `C` remains and still carries `parentId = some L` — the
code does not reparent children to root, contrary to the claim. -/
theorem handleDeleteLibrary_keeps_child_parentId :
    (handleDeleteLibrary appLC "L").fieldLibraries = [libC] ∧
    libC.parentId = some "L" := by decide

/-- C6 as stated fails on the code: binding a field that already has
options to a dropdown custom type keeps the existing options instead of
resetting them to the default option list. -/
theorem setFieldTypeFromLibrary_options_cex :
    (setFieldTypeFromLibrary [cfDropdown] fldWithOptions "c2").options = some ["A"] ∧
    (["A"] : List String) ≠ ["Option 1", "Option 2", "Option 3"] := by decide

/-- C6 (amended): binding a form field to a resolved library custom type
sets `type` to the custom type's base type, `customFieldTypeId` to its id,
`validationRules` to a value copy of its rules, and `options` — when the
new type is dropdown — to the field's existing options if present and the
default option list otherwise (absent when the new type is not
dropdown). -/
theorem setFieldTypeFromLibrary_binds (customFields : List CustomFieldType)
    (field : FormField) (value : String) (customField : CustomFieldType)
    (h : customFields.find? (fun cf => cf.id = value) = some customField) :
    (setFieldTypeFromLibrary customFields field value).type = customField.baseType ∧
    (setFieldTypeFromLibrary customFields field value).customFieldTypeId =
      some customField.id ∧
    (setFieldTypeFromLibrary customFields field value).validationRules =
      some customField.validationRules ∧
    (setFieldTypeFromLibrary customFields field value).options =
      (if customField.baseType = .select then
        some (field.options.getD ["Option 1", "Option 2", "Option 3"]) else none) := by
  have e : setFieldTypeFromLibrary customFields field value =
      { field with
          type := customField.baseType
          customFieldTypeId := some customField.id
          options :=
            if customField.baseType = .select then
              some (match field.options with
                | some opts => opts
                | none => ["Option 1", "Option 2", "Option 3"])
            else none
          validationRules := some customField.validationRules } := by
    unfold setFieldTypeFromLibrary
    rw [h]
  rw [e]
  refine ⟨rfl, rfl, rfl, ?_⟩
  cases field.options <;> rfl

/-- C6 witness: the amended binding theorem at a concrete field and
registry. -/
theorem setFieldTypeFromLibrary_binds_witness :
    (setFieldTypeFromLibrary [cfDropdown] (mkF "y") "c2").type = cfDropdown.baseType ∧
    (setFieldTypeFromLibrary [cfDropdown] (mkF "y") "c2").customFieldTypeId =
      some cfDropdown.id ∧
    (setFieldTypeFromLibrary [cfDropdown] (mkF "y") "c2").validationRules =
      some cfDropdown.validationRules ∧
    (setFieldTypeFromLibrary [cfDropdown] (mkF "y") "c2").options =
      (if cfDropdown.baseType = .select then
        some ((mkF "y").options.getD ["Option 1", "Option 2", "Option 3"]) else none) :=
  setFieldTypeFromLibrary_binds [cfDropdown] (mkF "y") "c2" cfDropdown (by decide)

/-- C7: updating a custom field type in the registry touches no field
instance of the form schema — the builder half of the session is
unchanged — and concretely, after binding a field to `cfV1` (one regex
rule) and then saving the edited `cfV2` (no rules) into the registry, the
bound field still carries the copied rule while the registry entry does
not. -/
theorem handleSaveCustomField_frame :
    (∀ (s : Session) (field : CustomFieldType),
      (sessionSaveCustomField s field).builder = s.builder) ∧
    (sessionSaveCustomField sess0 cfV2).app.customFields = [cfV2] ∧
    (sessionSaveCustomField sess0 cfV2).builder.schema.fields.map
      FormField.validationRules = [some [regexRule]] := by
  exact ⟨fun s field => rfl, by decide, by decide⟩

/-- A `findIndex` over a list with no match returns none. -/
theorem jsFindIndex_eq_none {p : α → Bool} :
    ∀ {l : List α}, (∀ g ∈ l, p g = false) → jsFindIndex p l = none := by
  intro l
  induction l with
  | nil => intro _; rfl
  | cons x xs ih =>
    intro h
    have hx := h x (List.mem_cons_self x xs)
    have ih2 := ih (fun g hg => h g (List.mem_cons_of_mem x hg))
    simp [jsFindIndex, hx, ih2]

/-- A move whose field id is not found only clears the moving state. -/
theorem moveFieldToPosition_none {st : BuilderState} {fieldId : String}
    (targetIndex : Nat)
    (h : jsFindIndex (fun f => f.id = fieldId) st.schema.fields = none) :
    moveFieldToPosition st fieldId targetIndex = { st with movingFieldId := none } := by
  simp only [moveFieldToPosition, h]

/-- C8: operations addressing an unknown field id never crash and leave
the schema unchanged — `deleteField` is a complete no-op (field list and
pending-undo record unchanged), `moveFieldToPosition` leaves the schema
and the pending-undo record unchanged for every target index, and
`updateField` with an unknown id is a complete no-op. -/
theorem unknownFieldId_noop (st : BuilderState) (fid : String) (u : FormField)
    (targetIndex : Nat)
    (hfid : ∀ f ∈ st.schema.fields, f.id ≠ fid)
    (hu : ∀ f ∈ st.schema.fields, f.id ≠ u.id) :
    deleteField st fid = st ∧
    (moveFieldToPosition st fid targetIndex).schema = st.schema ∧
    (moveFieldToPosition st fid targetIndex).deletedField = st.deletedField ∧
    updateField st u = st := by
  have hfind : jsFindIndex (fun f => f.id = fid) st.schema.fields = none :=
    jsFindIndex_eq_none (fun g hg => by simp [hfid g hg])
  refine ⟨?_, ?_, ?_, ?_⟩
  · simp only [deleteField, hfind]
  · rw [moveFieldToPosition_none targetIndex hfind]
  · rw [moveFieldToPosition_none targetIndex hfind]
  · simp only [updateField]
    have he : st.schema.fields.map (fun f => if f.id = u.id then u else f) =
        st.schema.fields := by
      conv_rhs => rw [← List.map_id st.schema.fields]
      exact List.map_congr_left (fun f hf => by simp [hu f hf])
    rw [he]

/-- C8 witness: the no-op theorem at the concrete four-field state and the
unknown id `zz`. -/
theorem unknownFieldId_noop_witness :
    deleteField st4 "zz" = st4 ∧
    (moveFieldToPosition st4 "zz" 2).schema = st4.schema ∧
    (moveFieldToPosition st4 "zz" 2).deletedField = st4.deletedField ∧
    updateField st4 (mkF "zz") = st4 :=
  unknownFieldId_noop st4 "zz" (mkF "zz") 2 (by decide) (by decide)

/-- Every single schema edit leaves the saved-version log untouched. -/
theorem applyOp_savedVersions (st : BuilderState) (op : EditOp) :
    (applyOp st op).savedVersions = st.savedVersions := by
  cases op with
  | add newId t => rfl
  | update u => rfl
  | delete id =>
    simp only [applyOp, deleteField]
    split
    · rfl
    · split <;> rfl
  | undo =>
    simp only [applyOp, undoDelete]
    split <;> rfl
  | move fieldId targetIndex =>
    simp only [applyOp, moveFieldToPosition]
    split
    · rfl
    · split <;> rfl

/-- Every sequence of schema edits leaves the saved-version log
untouched. -/
theorem applyOps_savedVersions :
    ∀ (ops : List EditOp) (st : BuilderState),
      (applyOps st ops).savedVersions = st.savedVersions := by
  intro ops
  induction ops with
  | nil => intro st; rfl
  | cons op ops ih =>
    intro st
    exact (ih (applyOp st op)).trans (applyOp_savedVersions st op)

/-- C9: saved versions are isolated snapshots.  Saving prepends a snapshot
structurally equal to the live schema; loading makes the live schema equal
to the snapshot; no sequence of schema edits changes the stored log; and
saving, editing arbitrarily, then loading the saved snapshot yields a
schema structurally equal to the original. -/
theorem saveVersion_isolated_snapshots :
    (∀ (st : BuilderState) (now : Date),
      (saveVersion st now).savedVersions =
        { id := formatVersionId now, timestamp := now, schema := st.schema } ::
          st.savedVersions) ∧
    (∀ (st : BuilderState) (version : SavedVersion),
      (loadVersion st version).schema = version.schema) ∧
    (∀ (st : BuilderState) (ops : List EditOp),
      (applyOps st ops).savedVersions = st.savedVersions) ∧
    (∀ (st : BuilderState) (now : Date) (ops : List EditOp),
      (loadVersion (applyOps (saveVersion st now) ops)
        { id := formatVersionId now, timestamp := now, schema := st.schema }).schema =
        st.schema) :=
  ⟨fun _ _ => rfl, fun _ _ => rfl, fun st ops => applyOps_savedVersions ops st,
    fun _ _ _ => rfl⟩

/-- C10: the stored options of a dropdown field edited through the options
textarea contain no entry whose trimmed value is empty. -/
theorem fieldEditorSetOptions_no_blank (field : FormField) (s : String) (o : String)
    (h : o ∈ ((fieldEditorSetOptions field s).options.getD [])) : jsTrim o ≠ "" := by
  have h2 : o ∈ parseOptions s := h
  have h3 := (List.mem_filter.mp h2).2
  simpa using h3

/-- C10 witness: entering `A`, a whitespace-only line and `B` stores an
option list whose member `A` has a nonempty trim. -/
theorem fieldEditorSetOptions_no_blank_witness : jsTrim "A" ≠ "" :=
  fieldEditorSetOptions_no_blank (mkF "w") "A\n \nB" "A" (by decide)

/-- C2 witness: deleting the field `f2` at index 2 of the four-field state
and undoing restores the state exactly. -/
theorem deleteField_undoDelete_restores_witness :
    undoDelete (deleteField st4 (mkF "f2").id) = { st4 with deletedField := none } :=
  deleteField_undoDelete_restores.1 st4 [mkF "f0", mkF "f1"] [mkF "f3"] (mkF "f2")
    (by decide) (by decide) (by decide)

end FB
